import Mathlib

/-!
# ReadFileMWE: process executor and worker pool

A shallow embedding of `src/mwe.cpp`.

* The operating system is an oracle: every Win32 call the program makes gets
  its result from a record `Os` (one record per executor invocation), and its
  effect on the process-wide handle table and consoles is recorded in `Proc`.
* `throw;` is evaluated in `mwe.cpp` only where no exception is being handled,
  which in C++ calls `std::terminate()`: the whole process ends there. This is
  the result `Result.terminate`.
* The build modelled is the default one (`PEEK_FIRST` is not defined anywhere
  in the repository), so the drain loop is the blocking `ReadFile` loop.
-/

set_option linter.unusedVariables false

namespace ReadFileMWE

/-! ## Machine integers and constants -/

/-- One `char` of captured output. -/
abbrev Byte := Fin 256

/-- Number of values of a `DWORD` / `UINT` / `int` (32 bit). -/
def DWORD_SIZE : Nat := 2 ^ 32

/-- Number of values of a `std::size_t` (64 bit). -/
def SIZE_T_SIZE : Nat := 2 ^ 64

/-- Win32 `WAIT_TIMEOUT`. -/
def WAIT_TIMEOUT : Nat := 258

/-- Win32 `STILL_ACTIVE`. -/
def STILL_ACTIVE : Nat := 259

/-- Line 107: `constexpr DWORD BUFFER_SIZE = 4096;`. -/
def BUFFER_SIZE : Nat := 4096

/-- Line 75: `DWORD const timeoutInMs = 30000;`. -/
def timeoutInMs : Nat := 30000

/-- Conversion of a signed value to `UINT`, as for the argument `-1` of
`TerminateProcess` on line 81. -/
def toUINT (i : Int) : Nat := (i % (DWORD_SIZE : Int)).toNat

/-- The conversion `static_cast<int>(exitCode)` of line 147, from `DWORD` to a
signed 32-bit `int`. -/
def toInt (d : Nat) : Int :=
  if d % DWORD_SIZE < 2 ^ 31 then ((d % DWORD_SIZE : Nat) : Int)
  else ((d % DWORD_SIZE : Nat) : Int) - (DWORD_SIZE : Int)

/-! ## Process state and operating-system oracle -/

/-- Process-wide state the program acts on: the kernel handle table of the
process, the record of the `CloseHandle` and `TerminateProcess` calls made, and
the lines written to `std::cout` and `std::cerr`. -/
structure Proc where
  /-- Value the kernel gives to the next handle it creates. -/
  nextHandle : Nat
  /-- Handles currently open in the process. -/
  openHandles : List Nat
  /-- Arguments of the `CloseHandle` calls, oldest first. -/
  closeCalls : List Nat
  /-- Arguments `(hProcess, uExitCode)` of the `TerminateProcess` calls. -/
  terminateCalls : List (Nat × Nat)
  /-- Lines written to `std::cout`, oldest first. -/
  cout : List String
  /-- Lines written to `std::cerr`, oldest first. -/
  cerr : List String
deriving DecidableEq, Repr

/-- What one `ReadFile` call on the pipe reports: the `BOOL` it returns and the
bytes the pipe hands over. -/
structure ReadResult where
  bSuccess : Bool
  data : List Byte
deriving DecidableEq, Repr

/-- The results the operating system gives to the calls of one invocation of
`ExecuteProcessAndCaptureOutput`. A field is consulted only if the call is
reached. `reads` lists the `ReadFile` calls that complete, in order; a
`ReadFile` issued after them never completes. -/
structure Os where
  createPipe : Bool
  setHandleInformation : Bool
  createProcess : Bool
  /-- Value of `GetLastError()`. -/
  lastError : Nat
  /-- Value returned by `WaitForSingleObject`. -/
  waitResult : Nat
  /-- Whether `TerminateProcess` returns non-zero. -/
  terminateProcess : Bool
  /-- Whether `GetExitCodeProcess` returns non-zero. -/
  getExitCodeProcess : Bool
  /-- Value `GetExitCodeProcess` stores in `exitCode`. -/
  exitCode : Nat
  reads : List ReadResult
  /-- Milliseconds measured around the wait (lines 74 to 87). -/
  waitTimeTaken : Nat
  /-- Milliseconds measured around the drain (lines 106 to 141). -/
  outputTimeTaken : Nat
deriving Repr

/-- How an invocation of `ExecuteProcessAndCaptureOutput` ends. -/
inductive Result where
  /-- Line 147: `return std::make_tuple(static_cast<int>(exitCode), resultString)`. -/
  | returned (exitCode : Int) (resultString : List Byte)
  /-- A bare `throw;` with no exception being handled: `std::terminate()`. -/
  | terminate
  /-- The thread stays inside a `ReadFile` call that never completes. -/
  | blocked
deriving DecidableEq, Repr

/-- Write one line to `std::cerr`. -/
def Proc.writeCerr (p : Proc) (line : String) : Proc :=
  { p with cerr := p.cerr ++ [line] }

/-- Successful `CreatePipe`: the kernel opens two new handles, the read end and
the write end. -/
def CreatePipe (p : Proc) : (Nat × Nat) × Proc :=
  ((p.nextHandle, p.nextHandle + 1),
   { p with nextHandle := p.nextHandle + 2,
            openHandles := p.openHandles ++ [p.nextHandle, p.nextHandle + 1] })

/-- Successful `CreateProcessA`: the kernel opens two new handles, `hProcess`
and `hThread` of `PROCESS_INFORMATION`. -/
def CreateProcessA (p : Proc) : (Nat × Nat) × Proc :=
  ((p.nextHandle, p.nextHandle + 1),
   { p with nextHandle := p.nextHandle + 2,
            openHandles := p.openHandles ++ [p.nextHandle, p.nextHandle + 1] })

/-- `CloseHandle(h)`: the handle leaves the table; the call is recorded. -/
def CloseHandle (h : Nat) (p : Proc) : Proc :=
  { p with openHandles := p.openHandles.erase h, closeCalls := p.closeCalls ++ [h] }

/-- `TerminateProcess(hProcess, uExitCode)`: the call is recorded. -/
def TerminateProcess (hProcess uExitCode : Nat) (p : Proc) : Proc :=
  { p with terminateCalls := p.terminateCalls ++ [(hProcess, uExitCode)] }

/-- `ReadFile(h, buffer, nNumberOfBytesToRead, &dwRead, NULL)`: the `BOOL`
returned and the bytes placed in the buffer, at most `nNumberOfBytesToRead`
of them; `dwRead` is their number. -/
def ReadFile (r : ReadResult) (nNumberOfBytesToRead : Nat) : Bool × List Byte :=
  (r.bSuccess, r.data.take nNumberOfBytesToRead)

/-! ## Logging (lines 16 to 24) -/

/-- Lines 16 to 19: one line on `std::cout`. -/
def PrintMessageLocked (s : String) (cout : List String) : List String :=
  cout ++ [s]

/-- Lines 21 to 24: one line on `std::cout`, built from the literal pieces of
line 23 and the decimal renderings of `threadId` and `usTaken`. -/
def PrintTimeLocked (what : String) (threadId usTaken : Nat) (cout : List String) :
    List String :=
  cout ++ ["Thead " ++ toString threadId ++ ": " ++ what ++ " took " ++ toString usTaken ++ "ms."]

/-- A line written to `std::cout` under the lock, acting on the process state. -/
def Proc.printMessage (p : Proc) (s : String) : Proc :=
  { p with cout := PrintMessageLocked s p.cout }

/-- `PrintTimeLocked` acting on the process state. -/
def Proc.printTime (p : Proc) (what : String) (threadId usTaken : Nat) : Proc :=
  { p with cout := PrintTimeLocked what threadId usTaken p.cout }

/-! ## Process executor (lines 26 to 148) -/

/-- Lines 114 to 135, the `do { ... } while (true)` drain loop of the default
build. Each iteration announces the read, issues `ReadFile` for `BUFFER_SIZE`
bytes, leaves the loop when the call failed or read nothing, and otherwise
appends the `dwRead` bytes to `resultString`. `none`: the next `ReadFile` never
completes. -/
def drainLoop (myThreadId : Nat) :
    List ReadResult → List Byte → Proc → Option (List Byte) × Proc
  | [], _, p => (none, p.printTime "Now in front of ReadFile" myThreadId 0)
  | r :: rs, resultString, p =>
    let p := p.printTime "Now in front of ReadFile" myThreadId 0
    let (bSuccess, buffer) := ReadFile r BUFFER_SIZE
    let dwRead := buffer.length
    if !bSuccess || dwRead == 0 then (some resultString, p)
    else
      let p := p.printTime "ReadFile returned" myThreadId dwRead
      drainLoop myThreadId rs (resultString ++ buffer) p

/-- Lines 26 to 148. -/
def ExecuteProcessAndCaptureOutput (command workingDirectory : String) (myThreadId : Nat)
    (os : Os) (p : Proc) : Result × Proc :=
  -- line 43
  if !os.createPipe then
    (.terminate, p.writeCerr
      ("Failed to create STDOUT pipe for child process, last error = " ++ toString os.lastError))
  else
  let ((g_hChildStd_OUT_Rd, g_hChildStd_OUT_Wr), p) := CreatePipe p
  -- line 49
  if !os.setHandleInformation then
    (.terminate, p.writeCerr
      ("Failed to set handle information for child process, last error = "
        ++ toString os.lastError))
  else
  -- line 64
  if !os.createProcess then
    (.terminate, p.writeCerr ("Failed to create process, last error = " ++ toString os.lastError))
  else
  let ((hProcess, hThread), p) := CreateProcessA p
  -- line 71
  let p := CloseHandle g_hChildStd_OUT_Wr p
  -- lines 76 to 85
  let p :=
    if os.waitResult == WAIT_TIMEOUT then
      let p := p.writeCerr ("Internal Error: Execution took longer than "
        ++ toString timeoutInMs ++ "ms, abandoning!")
      let p := p.writeCerr ("Command was: \x27" ++ command ++ "\x27")
      let p := TerminateProcess hProcess (toUINT (-1)) p
      if !os.terminateProcess then
        p.writeCerr "Internal Error: Failed to terminate sub-process :("
      else p
    else p
  -- line 88
  let p := p.printTime "Waiting for object" myThreadId os.waitTimeTaken
  -- lines 90 to 99
  let exitCode := os.exitCode % DWORD_SIZE
  if !os.getExitCodeProcess then
    (.terminate, p.writeCerr "Internal Error: Failed to get exit code from process!")
  else if exitCode == STILL_ACTIVE then
    (.terminate, p.writeCerr
      "Internal Error: Failed to get exit code from process, it is still running!")
  else
  -- lines 102, 103
  let p := CloseHandle hProcess p
  let p := CloseHandle hThread p
  -- lines 114 to 135
  match drainLoop myThreadId os.reads [] p with
  | (none, p) => (.blocked, p)
  | (some resultString, p) =>
    -- line 142
    let p := p.printTime "Reading output" myThreadId os.outputTimeTaken
    -- line 145
    let p := CloseHandle g_hChildStd_OUT_Rd p
    -- line 147
    (.returned (toInt exitCode) resultString, p)

/-! ## Worker pool (lines 152 to 173) -/

/-- Where a worker thread stands in `ThreadFunction`. -/
inductive Pc where
  /-- About to evaluate `workCounter++` on line 156. -/
  | claiming
  /-- Past the test of line 157 with an index in range, about to run lines 160
  to 166 for it. -/
  | executing (currentTimeIndex : Nat)
  /-- Inside an executor call that never returns. -/
  | blocked (currentTimeIndex : Nat)
  /-- Left the loop, wrote its exit line (lines 169 to 172) and returned. -/
  | exited
deriving DecidableEq, Repr

/-- Everything outside the program that a pool run depends on. -/
structure Env where
  /-- Operating-system results seen by the executor call for each work index. -/
  os : Nat → Os
  /-- Value of `std::filesystem::current_path().string()`. -/
  currentPath : String
  /-- Milliseconds measured around the executor call for each work index
  (lines 162 to 165). -/
  procTimeTaken : Nat → Nat

/-- State of a pool run: the shared cursor `workCounter` (line 154), the
program counter of every thread (the thread started with `myThreadId = i + 1`
is at position `i`, line 198), the process state, and two ghost logs. -/
structure Pool where
  workCounter : Nat
  pcs : List Pc
  /-- Ghost: `(myThreadId, currentTimeIndex)` of every `workCounter++`, oldest
  first. -/
  fetched : List (Nat × Nat)
  /-- Ghost: `(myThreadId, currentTimeIndex)` of every executor call that
  returned, oldest first. -/
  executed : List (Nat × Nat)
  /-- Whether `std::terminate()` has ended the process. -/
  terminated : Bool
  proc : Proc
deriving DecidableEq, Repr

/-- The pool as `main` starts it (lines 196 to 199): cursor `0`, `threadCount`
threads about to make their first claim. -/
def Pool.init (threadCount : Nat) (proc : Proc) : Pool :=
  { workCounter := 0, pcs := List.replicate threadCount Pc.claiming,
    fetched := [], executed := [], terminated := false, proc := proc }

/-- One atomic step of the thread at position `i` (`myThreadId = i + 1`) of
`ThreadFunction`, lines 152 to 173.

* `claiming`: the atomic `workCounter++` of line 156 and the test of line 157.
* `executing idx`: lines 160 to 166, the executor call for `times.at(idx)`.
  A call that returns is followed by the next claim; `std::terminate()` inside
  the call ends the process, since `ThreadFunction` has no handler.

The executor call is taken as one step: it does not touch `workCounter`, so
how it interleaves with the fetches of other threads does not change what any
thread fetches. A terminated process, a blocked thread and an exited thread
take no step. -/
def ThreadFunction (env : Env) (times : List Nat) (i : Nat) (s : Pool) : Pool :=
  let myThreadId := i + 1
  let maxTimes := times.length
  if s.terminated then s
  else
    match s.pcs[i]? with
    | none => s
    | some Pc.exited => s
    | some (Pc.blocked _) => s
    | some Pc.claiming =>
      let currentTimeIndex := s.workCounter
      let s := { s with workCounter := (s.workCounter + 1) % SIZE_T_SIZE,
                        fetched := s.fetched ++ [(myThreadId, currentTimeIndex)] }
      if currentTimeIndex ≥ maxTimes then
        { s with pcs := s.pcs.set i Pc.exited,
                 proc := s.proc.printMessage ("Thread " ++ toString myThreadId ++ " is exiting.") }
      else
        { s with pcs := s.pcs.set i (Pc.executing currentTimeIndex) }
    | some (Pc.executing currentTimeIndex) =>
      match times[currentTimeIndex]? with
      | none => { s with terminated := true }
      | some myTime =>
        match ExecuteProcessAndCaptureOutput (".\\sleepHelper.exe " ++ toString myTime)
            env.currentPath myThreadId (env.os currentTimeIndex) s.proc with
        | (Result.returned _ _, proc) =>
          { s with pcs := s.pcs.set i Pc.claiming,
                   executed := s.executed ++ [(myThreadId, currentTimeIndex)],
                   proc := proc.printTime "Executing process" myThreadId
                     (env.procTimeTaken currentTimeIndex) }
        | (Result.terminate, proc) => { s with terminated := true, proc := proc }
        | (Result.blocked, proc) =>
          { s with pcs := s.pcs.set i (Pc.blocked currentTimeIndex), proc := proc }

/-- A schedule is the order in which threads take their steps; `run` lets the
pool take them. -/
def run (env : Env) (times : List Nat) (schedule : List Nat) (s : Pool) : Pool :=
  schedule.foldl (fun s i => ThreadFunction env times i s) s

/-- Every thread has left `ThreadFunction`. -/
def Pool.allExited (s : Pool) : Prop := ∀ pc ∈ s.pcs, pc = Pc.exited

instance (s : Pool) : Decidable s.allExited :=
  inferInstanceAs (Decidable (∀ pc ∈ s.pcs, pc = Pc.exited))

/-! ## Command line (lines 175 to 199) -/

/-- The exceptions `std::stoull` throws. -/
inductive StoullError where
  | invalid_argument
  | out_of_range
deriving DecidableEq, Repr

/-- C `isspace` in the "C" locale. -/
def isspace (c : Char) : Bool := c.toNat == 32 || (9 ≤ c.toNat && c.toNat ≤ 13)

/-- Value of a run of decimal digits. -/
def digitsValue (ds : List Char) : Nat :=
  ds.foldl (fun acc c => 10 * acc + (c.toNat - 48)) 0

/-- The C++ standard library function `std::stoull(str)` (base 10), which is
`strtoull`: white space is skipped, an optional sign is read, then the longest
run of decimal digits; what follows is ignored. No digit: `invalid_argument`.
A value above `ULLONG_MAX`: `out_of_range`. With a minus sign the value is
negated in `unsigned long long`. -/
def stoull (str : String) : Except StoullError Nat :=
  let s := str.toList.dropWhile isspace
  let (negative, s) :=
    match s with
    | c :: rest =>
      if c.toNat == 45 then (true, rest)
      else if c.toNat == 43 then (false, rest)
      else (false, s)
    | [] => (false, s)
  let ds := s.takeWhile Char.isDigit
  if ds.isEmpty then Except.error StoullError.invalid_argument
  else if digitsValue ds ≥ SIZE_T_SIZE then Except.error StoullError.out_of_range
  else Except.ok (if negative then (SIZE_T_SIZE - digitsValue ds) % SIZE_T_SIZE
                  else digitsValue ds)

/-- How lines 175 to 199 of `main` end. -/
inductive MainStart where
  /-- `main` returns `code` (line 182) after the lines `cerr`, before any
  thread is created. -/
  | exit (code : Int) (cerr : List String)
  /-- An exception leaves `main`: `std::terminate()`, before any thread is
  created. -/
  | uncaught (e : StoullError)
  /-- Lines 196 to 199 create `threadCount` threads running `ThreadFunction`
  on `times`, after the lines `cout`. -/
  | startWorkers (threadCount : Nat) (times : List Nat) (cout : List String)
deriving DecidableEq, Repr

/-- Lines 175 to 199; `argv` holds the `argc` arguments, program name first. -/
def main (argv : List String) : MainStart :=
  let parsed : Except StoullError Nat :=
    if argv.length > 1 then
      match argv[1]? with
      | some arg => stoull arg
      | none => Except.ok 3
    else Except.ok 3
  match parsed with
  | Except.error e => MainStart.uncaught e
  | Except.ok threadCount =>
    if threadCount < 1 || threadCount > 64 then
      MainStart.exit (-1) ["Thread count out of bounds. Use 1 <= thread count <= 64."]
    else
      MainStart.startWorkers threadCount
        (5000 :: List.replicate (threadCount - 1) 500)
        ["Using thread count = " ++ toString threadCount]

/-! ## Vocabulary of the statements -/

/-- A read that ends the drain: it failed, or it read zero bytes. -/
def ReadResult.endsDrain (r : ReadResult) : Prop := r.bSuccess = false ∨ r.data = []

/-- The successful reads that deliver the chunks `chunks`, in order. -/
def deliver (chunks : List (List Byte)) : List ReadResult :=
  chunks.map (fun c => { bSuccess := true, data := c })

/-- Every open handle was created by the kernel before the next one it will
create. -/
def Proc.wf (p : Proc) : Prop := ∀ h ∈ p.openHandles, h < p.nextHandle

instance (p : Proc) : Decidable p.wf :=
  inferInstanceAs (Decidable (∀ h ∈ p.openHandles, h < p.nextHandle))

/-- The process state in which the drain loop (line 114) is entered when every
call before it succeeded: lines 43 to 103 applied to `p`. -/
def stateBeforeDrain (command : String) (myThreadId : Nat) (os : Os) (p : Proc) : Proc :=
  let g_hChildStd_OUT_Wr := p.nextHandle + 1
  let hProcess := p.nextHandle + 2
  let hThread := p.nextHandle + 3
  let p := (CreatePipe p).2
  let p := (CreateProcessA p).2
  let p := CloseHandle g_hChildStd_OUT_Wr p
  let p :=
    if os.waitResult == WAIT_TIMEOUT then
      let p := p.writeCerr ("Internal Error: Execution took longer than "
        ++ toString timeoutInMs ++ "ms, abandoning!")
      let p := p.writeCerr ("Command was: \x27" ++ command ++ "\x27")
      let p := TerminateProcess hProcess (toUINT (-1)) p
      if !os.terminateProcess then
        p.writeCerr "Internal Error: Failed to terminate sub-process :("
      else p
    else p
  let p := p.printTime "Waiting for object" myThreadId os.waitTimeTaken
  CloseHandle hThread (CloseHandle hProcess p)

/-- Sequential invocations of the executor on one thread, one per entry of the
list, each starting in the state the previous one left. The flag tells whether
every invocation returned; the sequence stops at the first that does not. -/
def executeSequentially (command workingDirectory : String) (myThreadId : Nat) :
    List Os → Proc → Bool × Proc
  | [], p => (true, p)
  | os :: rest, p =>
    match ExecuteProcessAndCaptureOutput command workingDirectory myThreadId os p with
    | (Result.returned _ _, q) => executeSequentially command workingDirectory myThreadId rest q
    | (_, q) => (false, q)

/-- The `CloseHandle` calls of `n` returning invocations when the first handle
created is `base`: write end, process, thread, read end, for each in turn. -/
def closesOf (base : Nat) : Nat → List Nat
  | 0 => []
  | n + 1 => [base + 1, base + 2, base + 3, base] ++ closesOf (base + 4) n

/-- A process state with four handles already open (three standard handles
and one more). -/
def sampleProc : Proc :=
  { nextHandle := 4, openHandles := [0, 1, 2, 3], closeCalls := [], terminateCalls := [],
    cout := [], cerr := [] }

/-- An invocation in which every call succeeds, the child exits with code `0`
before the timeout, and the pipe delivers three bytes and then a failed read. -/
def sampleOs : Os :=
  { createPipe := true, setHandleInformation := true, createProcess := true, lastError := 0,
    waitResult := 0, terminateProcess := true, getExitCodeProcess := true, exitCode := 0,
    reads := [{ bSuccess := true, data := [72, 105, 10] }, { bSuccess := false, data := [] }],
    waitTimeTaken := 5, outputTimeTaken := 7 }

/-- The chunks of an output of 1 MiB and three bytes: 256 full buffers of 4096
bytes and a last read of three bytes. -/
def largeOutputChunks : List (List Byte) :=
  List.replicate 256 (List.replicate 4096 65) ++ [[67, 68, 10]]

/-- An invocation whose child writes 1 MiB and three bytes, delivered as
`largeOutputChunks` and then a read of zero bytes. -/
def largeOutputOs : Os :=
  { sampleOs with
    reads := deliver largeOutputChunks ++ [{ bSuccess := true, data := [] }] }

/-- An invocation whose child is still running at the timeout and is terminated
with success, after which the system reports the termination code. -/
def timeoutOs : Os :=
  { sampleOs with waitResult := 258, terminateProcess := true, exitCode := 4294967295 }

/-- The claims in flight: `(myThreadId, currentTimeIndex)` for every thread that
holds a claimed index whose executor call has not returned yet, the thread at
position `0` of the list having `myThreadId = k + 1`. -/
def inflightFrom (k : Nat) : List Pc → List (Nat × Nat)
  | [] => []
  | Pc.executing idx :: rest => (k + 1, idx) :: inflightFrom (k + 1) rest
  | Pc.claiming :: rest => inflightFrom (k + 1) rest
  | Pc.blocked _ :: rest => inflightFrom (k + 1) rest
  | Pc.exited :: rest => inflightFrom (k + 1) rest

/-- Every executor call the pool can make for an index in range returns. -/
def Env.alwaysReturns (env : Env) (times : List Nat) : Prop :=
  ∀ i command workingDirectory myThreadId p, i < times.length →
    ∃ exitCode resultString,
      (ExecuteProcessAndCaptureOutput command workingDirectory myThreadId (env.os i) p).1 =
        Result.returned exitCode resultString

/-- Invariant of a pool run in which every executor call returns. -/
def PoolInv (times : List Nat) (threadCount : Nat) (s : Pool) : Prop :=
  s.terminated = false ∧
  s.pcs.length = threadCount ∧
  (∀ idx, Pc.blocked idx ∉ s.pcs) ∧
  (∀ idx, Pc.executing idx ∈ s.pcs → idx < times.length) ∧
  s.workCounter = s.fetched.length ∧
  s.fetched.map Prod.snd = List.range s.fetched.length ∧
  s.pcs.count Pc.exited = s.fetched.length - times.length ∧
  (s.executed ++ inflightFrom 0 s.pcs).Perm
    (s.fetched.filter (fun e => decide (e.2 < times.length)))

/-- An environment in which every invocation behaves as `sampleOs`. -/
def sampleEnv : Env :=
  { os := fun _ => sampleOs, currentPath := ".", procTimeTaken := fun _ => 9 }

/-- The executor failures of one invocation: pipe creation, handle
configuration, process creation, exit-code retrieval, or an exit code that is
still the sentinel. -/
def Os.fails (os : Os) : Prop :=
  os.createPipe = false ∨ os.setHandleInformation = false ∨ os.createProcess = false ∨
    os.getExitCodeProcess = false ∨ os.exitCode % DWORD_SIZE = STILL_ACTIVE

/-- An environment in which `CreateProcessA` fails for work index `0` and every
other invocation behaves as `sampleOs`. -/
def failingEnv : Env :=
  { os := fun i => if i = 0 then { sampleOs with createProcess := false } else sampleOs,
    currentPath := ".", procTimeTaken := fun _ => 9 }

/-! ## Facts about the drain loop -/

theorem drainLoop_fst (myThreadId : Nat) (chunks : List (List Byte)) (last : ReadResult)
    (rest : List ReadResult) (hsize : ∀ c ∈ chunks, 1 ≤ c.length ∧ c.length ≤ BUFFER_SIZE)
    (hlast : last.endsDrain) (acc : List Byte) (p : Proc) :
    (drainLoop myThreadId (deliver chunks ++ last :: rest) acc p).1 =
      some (acc ++ chunks.flatten) := by
  induction chunks generalizing acc p with
  | nil =>
    rcases hlast with h | h <;> simp [deliver, drainLoop, ReadFile, h]
  | cons c cs ih =>
    have hc := hsize c (List.mem_cons_self _ _)
    have hcs : ∀ d ∈ cs, 1 ≤ d.length ∧ d.length ≤ BUFFER_SIZE :=
      fun d hd => hsize d (List.mem_cons_of_mem _ hd)
    have htake : c.take BUFFER_SIZE = c := List.take_of_length_le hc.2
    have hne : c ≠ [] := by
      intro h; rw [h] at hc; simp at hc
    have ih2 := ih hcs (acc ++ c)
    simp only [deliver] at ih2
    simp [deliver, drainLoop, ReadFile, htake, hne, ih2]

theorem drainLoop_snd (myThreadId : Nat) (reads : List ReadResult) (acc : List Byte) (p : Proc) :
    (drainLoop myThreadId reads acc p).2.nextHandle = p.nextHandle ∧
    (drainLoop myThreadId reads acc p).2.openHandles = p.openHandles ∧
    (drainLoop myThreadId reads acc p).2.closeCalls = p.closeCalls ∧
    (drainLoop myThreadId reads acc p).2.terminateCalls = p.terminateCalls ∧
    (drainLoop myThreadId reads acc p).2.cerr = p.cerr := by
  induction reads generalizing acc p with
  | nil => simp [drainLoop, Proc.printTime]
  | cons r rs ih =>
    simp only [drainLoop]
    split
    · simp [Proc.printTime]
    · have := ih (acc ++ (ReadFile r BUFFER_SIZE).2)
        ((p.printTime "Now in front of ReadFile" myThreadId 0).printTime "ReadFile returned"
          myThreadId (ReadFile r BUFFER_SIZE).2.length)
      simpa [Proc.printTime] using this

/-! ## Facts about the executor -/

theorem execute_eq_drain (command workingDirectory : String) (myThreadId : Nat) (os : Os)
    (p : Proc) (hpipe : os.createPipe = true) (hinfo : os.setHandleInformation = true)
    (hproc : os.createProcess = true) (hcode : os.getExitCodeProcess = true)
    (hactive : os.exitCode % DWORD_SIZE ≠ STILL_ACTIVE) :
    ExecuteProcessAndCaptureOutput command workingDirectory myThreadId os p =
      match drainLoop myThreadId os.reads [] (stateBeforeDrain command myThreadId os p) with
      | (none, q) => (Result.blocked, q)
      | (some resultString, q) =>
        (Result.returned (toInt (os.exitCode % DWORD_SIZE)) resultString,
          CloseHandle p.nextHandle
            (q.printTime "Reading output" myThreadId os.outputTimeTaken)) := by
  have hactive2 : (os.exitCode % DWORD_SIZE == STILL_ACTIVE) = false := by
    simpa using hactive
  simp only [ExecuteProcessAndCaptureOutput, hpipe, hinfo, hproc, hcode, hactive2, CreatePipe,
      CreateProcessA, Bool.not_true, Bool.false_eq_true, if_false, stateBeforeDrain]

theorem stateBeforeDrain_handles (command : String) (myThreadId : Nat) (os : Os) (p : Proc) :
    (stateBeforeDrain command myThreadId os p).nextHandle = p.nextHandle + 4 ∧
    (stateBeforeDrain command myThreadId os p).openHandles =
      (((p.openHandles ++ [p.nextHandle, p.nextHandle + 1] ++
        [p.nextHandle + 2, p.nextHandle + 3]).erase (p.nextHandle + 1)).erase
          (p.nextHandle + 2)).erase (p.nextHandle + 3) ∧
    (stateBeforeDrain command myThreadId os p).closeCalls =
      p.closeCalls ++ [p.nextHandle + 1, p.nextHandle + 2, p.nextHandle + 3] ∧
    (stateBeforeDrain command myThreadId os p).terminateCalls = p.terminateCalls ++
        (if os.waitResult = WAIT_TIMEOUT then [(p.nextHandle + 2, toUINT (-1))] else []) := by
  simp only [stateBeforeDrain, CreatePipe, CreateProcessA, CloseHandle, Proc.printTime]
  refine ⟨?_, ?_, ?_, ?_⟩
  · split <;> [split; skip] <;> simp [Proc.writeCerr, TerminateProcess]
  · split <;> [split; skip] <;> simp [Proc.writeCerr, TerminateProcess]
  · split <;> [split; skip] <;> simp [Proc.writeCerr, TerminateProcess]
  · by_cases h : os.waitResult = WAIT_TIMEOUT
    · simp only [h, beq_self_eq_true, if_true]
      split <;> simp [Proc.writeCerr, TerminateProcess]
    · have h2 : (os.waitResult == WAIT_TIMEOUT) = false := by simpa using h
      simp [h, h2]

/-- With every earlier open handle older than `n`, the four closes of a
returning invocation undo its four creations. -/
theorem erase_created (l : List Nat) (n : Nat) (hl : ∀ h ∈ l, h < n) :
    ((((l ++ [n, n + 1] ++ [n + 2, n + 3]).erase (n + 1)).erase (n + 2)).erase (n + 3)).erase n
      = l := by
  have h0 : n ∉ l := fun h => by have := hl n h; omega
  have h1 : n + 1 ∉ l := fun h => by have := hl _ h; omega
  have h2 : n + 2 ∉ l := fun h => by have := hl _ h; omega
  have h3 : n + 3 ∉ l := fun h => by have := hl _ h; omega
  simp [List.append_assoc, List.erase_append_right, h0, h1, h2, h3, List.erase_cons]

/-- What a returning invocation requires of the operating system. -/
theorem execute_returned_inv (command workingDirectory : String) (myThreadId : Nat) (os : Os)
    (p : Proc) (exitCode : Int) (resultString : List Byte)
    (h : (ExecuteProcessAndCaptureOutput command workingDirectory myThreadId os p).1 =
      Result.returned exitCode resultString) :
    os.createPipe = true ∧ os.setHandleInformation = true ∧ os.createProcess = true ∧
      os.getExitCodeProcess = true ∧ os.exitCode % DWORD_SIZE ≠ STILL_ACTIVE := by
  by_cases hpipe : os.createPipe = true
  swap
  · simp [ExecuteProcessAndCaptureOutput, hpipe] at h
  by_cases hinfo : os.setHandleInformation = true
  swap
  · simp [ExecuteProcessAndCaptureOutput, hpipe, hinfo] at h
  by_cases hproc : os.createProcess = true
  swap
  · simp [ExecuteProcessAndCaptureOutput, hpipe, hinfo, hproc] at h
  by_cases hcode : os.getExitCodeProcess = true
  swap
  · simp [ExecuteProcessAndCaptureOutput, hpipe, hinfo, hproc, hcode] at h
  by_cases hactive : os.exitCode % DWORD_SIZE = STILL_ACTIVE
  · simp [ExecuteProcessAndCaptureOutput, hpipe, hinfo, hproc, hcode, hactive] at h
  · exact ⟨hpipe, hinfo, hproc, hcode, hactive⟩

/-- How a returning invocation leaves the process state. -/
theorem execute_returned_state (command workingDirectory : String) (myThreadId : Nat) (os : Os)
    (p : Proc) (exitCode : Int) (resultString : List Byte)
    (h : (ExecuteProcessAndCaptureOutput command workingDirectory myThreadId os p).1 =
      Result.returned exitCode resultString) :
    (ExecuteProcessAndCaptureOutput command workingDirectory myThreadId os p).2.nextHandle =
        p.nextHandle + 4 ∧
    (ExecuteProcessAndCaptureOutput command workingDirectory myThreadId os p).2.openHandles =
        ((((p.openHandles ++ [p.nextHandle, p.nextHandle + 1] ++
          [p.nextHandle + 2, p.nextHandle + 3]).erase (p.nextHandle + 1)).erase
            (p.nextHandle + 2)).erase (p.nextHandle + 3)).erase p.nextHandle ∧
    (ExecuteProcessAndCaptureOutput command workingDirectory myThreadId os p).2.closeCalls =
        p.closeCalls ++ [p.nextHandle + 1, p.nextHandle + 2, p.nextHandle + 3, p.nextHandle] := by
  obtain ⟨hpipe, hinfo, hproc, hcode, hactive⟩ :=
    execute_returned_inv command workingDirectory myThreadId os p exitCode resultString h
  have heq := execute_eq_drain command workingDirectory myThreadId os p hpipe hinfo hproc hcode
    hactive
  have hd := drainLoop_snd myThreadId os.reads [] (stateBeforeDrain command myThreadId os p)
  have hs := stateBeforeDrain_handles command myThreadId os p
  rw [heq] at h ⊢
  rcases hdl : drainLoop myThreadId os.reads [] (stateBeforeDrain command myThreadId os p)
    with ⟨o, q⟩
  rw [hdl] at h hd
  cases o with
  | none => simp at h
  | some out =>
    simp only [CloseHandle, Proc.printTime]
    simp only at hd
    refine ⟨?_, ?_, ?_⟩
    · rw [hd.1, hs.1]
    · rw [hd.2.1, hs.2.1]
    · rw [hd.2.2.1, hs.2.2.1]; simp

/-- Sequential returning invocations: handle table, creations and closes. -/
theorem executeSequentially_state (command workingDirectory : String) (myThreadId : Nat)
    (calls : List Os) (p : Proc) (hwf : p.wf)
    (hret : (executeSequentially command workingDirectory myThreadId calls p).1 = true) :
    (executeSequentially command workingDirectory myThreadId calls p).2.openHandles =
        p.openHandles ∧
    (executeSequentially command workingDirectory myThreadId calls p).2.nextHandle =
        p.nextHandle + 4 * calls.length ∧
    (executeSequentially command workingDirectory myThreadId calls p).2.closeCalls =
        p.closeCalls ++ closesOf p.nextHandle calls.length := by
  induction calls generalizing p with
  | nil => simp [executeSequentially, closesOf]
  | cons os rest ih =>
    simp only [executeSequentially] at hret ⊢
    rcases hex : ExecuteProcessAndCaptureOutput command workingDirectory myThreadId os p
      with ⟨r, q⟩
    rw [hex] at hret
    cases r with
    | terminate => simp at hret
    | blocked => simp at hret
    | returned code out =>
      simp only at hret ⊢
      have hst := execute_returned_state command workingDirectory myThreadId os p code out
        (by rw [hex])
      rw [hex] at hst
      simp only at hst
      have hopen : q.openHandles = p.openHandles := by
        rw [hst.2.1]; exact erase_created _ _ hwf
      have hqwf : q.wf := by
        intro h hh
        rw [hopen] at hh
        have := hwf h hh
        rw [hst.1]; omega
      obtain ⟨i1, i2, i3⟩ := ih q hqwf hret
      refine ⟨?_, ?_, ?_⟩
      · rw [i1, hopen]
      · rw [i2, hst.1, List.length_cons]; ring
      · rw [i3, hst.2.2, hst.1]; simp [closesOf]

theorem closesOf_count_lt (n m k : Nat) (hk : k < m) : (closesOf m n).count k = 0 := by
  induction n generalizing m with
  | zero => simp [closesOf]
  | succ n ih =>
    have h4 := ih (m + 4) (by omega)
    have e0 : ¬ m = k := by omega
    have e1 : ¬ m + 1 = k := by omega
    have e2 : ¬ m + 2 = k := by omega
    have e3 : ¬ m + 3 = k := by omega
    simp [closesOf, List.count_cons, h4, e0, e1, e2, e3]

theorem closesOf_count (n b h : Nat) (hlo : b ≤ h) (hhi : h < b + 4 * n) :
    (closesOf b n).count h = 1 := by
  induction n generalizing b with
  | zero => omega
  | succ n ih =>
    by_cases hb : h < b + 4
    · have hrest := closesOf_count_lt n (b + 4) h hb
      have hcase : h = b ∨ h = b + 1 ∨ h = b + 2 ∨ h = b + 3 := by omega
      rcases hcase with rfl | rfl | rfl | rfl <;>
        simp [closesOf, List.count_cons, hrest]
    · have hrest := ih (b + 4) (by omega) (by omega)
      have e0 : ¬ b = h := by omega
      have e1 : ¬ b + 1 = h := by omega
      have e2 : ¬ b + 2 = h := by omega
      have e3 : ¬ b + 3 = h := by omega
      simp [closesOf, List.count_cons, hrest, e0, e1, e2, e3]

/-- C4. Every invocation of `ExecuteProcessAndCaptureOutput` that returns closes
each of the four handles it created (write end, process, thread, read end)
exactly once, so after any number of sequential returning invocations the open
handles, and so their count, are those before the first: the kernel created
four handles per invocation and the program closed exactly those. -/
theorem returned_invocations_release_handles (command workingDirectory : String)
    (myThreadId : Nat) (calls : List Os) (p : Proc) (hwf : p.wf)
    (hret : (executeSequentially command workingDirectory myThreadId calls p).1 = true) :
    (executeSequentially command workingDirectory myThreadId calls p).2.openHandles =
        p.openHandles ∧
    (executeSequentially command workingDirectory myThreadId calls p).2.openHandles.length =
        p.openHandles.length ∧
    (executeSequentially command workingDirectory myThreadId calls p).2.nextHandle =
        p.nextHandle + 4 * calls.length ∧
    (executeSequentially command workingDirectory myThreadId calls p).2.closeCalls =
        p.closeCalls ++ closesOf p.nextHandle calls.length ∧
    (∀ h, p.nextHandle ≤ h → h < p.nextHandle + 4 * calls.length →
      (closesOf p.nextHandle calls.length).count h = 1) := by
  obtain ⟨h1, h2, h3⟩ :=
    executeSequentially_state command workingDirectory myThreadId calls p hwf hret
  refine ⟨h1, by rw [h1], h2, h3, ?_⟩
  intro h hlo hhi
  exact closesOf_count _ _ _ hlo hhi

theorem returned_invocations_release_handles_witness :
    sampleProc.wf ∧
    (executeSequentially "cmd" "." 1 (List.replicate 100 sampleOs) sampleProc).1 = true ∧
    (executeSequentially "cmd" "." 1 (List.replicate 100 sampleOs) sampleProc).2.openHandles
      = [0, 1, 2, 3] ∧
    (executeSequentially "cmd" "." 1 (List.replicate 100 sampleOs) sampleProc).2.nextHandle
      = 404 :=
  have h := returned_invocations_release_handles "cmd" "." 1 (List.replicate 100 sampleOs)
    sampleProc (by decide) (by decide)
  ⟨by decide, by decide, h.1, by simpa [sampleProc] using h.2.2.1⟩

/-- The result of an invocation whose calls before the drain succeed and whose
pipe delivers `chunks` and then a read that ends the drain. -/
theorem execute_result_of_reads (command workingDirectory : String) (myThreadId : Nat) (os : Os)
    (p : Proc) (chunks : List (List Byte)) (last : ReadResult) (rest : List ReadResult)
    (hpipe : os.createPipe = true) (hinfo : os.setHandleInformation = true)
    (hproc : os.createProcess = true) (hcode : os.getExitCodeProcess = true)
    (hactive : os.exitCode % DWORD_SIZE ≠ STILL_ACTIVE)
    (hsize : ∀ c ∈ chunks, 1 ≤ c.length ∧ c.length ≤ BUFFER_SIZE)
    (hlast : last.endsDrain) (hreads : os.reads = deliver chunks ++ last :: rest) :
    (ExecuteProcessAndCaptureOutput command workingDirectory myThreadId os p).1 =
      Result.returned (toInt (os.exitCode % DWORD_SIZE)) chunks.flatten := by
  have heq := execute_eq_drain command workingDirectory myThreadId os p hpipe hinfo hproc hcode
    hactive
  have hd := drainLoop_fst myThreadId chunks last rest hsize hlast []
    (stateBeforeDrain command myThreadId os p)
  rw [heq, hreads]
  rcases hdl : drainLoop myThreadId (deliver chunks ++ last :: rest) []
    (stateBeforeDrain command myThreadId os p) with ⟨o, q⟩
  rw [hdl] at hd
  simp only at hd
  subst hd
  simp

theorem toInt_ne_still_active (d : Nat) (h : d % DWORD_SIZE ≠ STILL_ACTIVE) :
    toInt d ≠ (STILL_ACTIVE : Int) := by
  unfold toInt
  simp only [DWORD_SIZE, STILL_ACTIVE] at h ⊢
  split <;> omega

theorem toInt_mod (d : Nat) : toInt (d % DWORD_SIZE) = toInt d := by
  simp [toInt]

/-- An exit code that cannot be retrieved, or that is the sentinel, ends the
process. -/
theorem execute_terminate_of_exit_code (command workingDirectory : String) (myThreadId : Nat)
    (os : Os) (p : Proc)
    (h : os.getExitCodeProcess = false ∨ os.exitCode % DWORD_SIZE = STILL_ACTIVE) :
    (ExecuteProcessAndCaptureOutput command workingDirectory myThreadId os p).1 =
      Result.terminate := by
  cases hpipe : os.createPipe <;> cases hinfo : os.setHandleInformation <;>
    cases hproc : os.createProcess <;>
    simp [ExecuteProcessAndCaptureOutput, hpipe, hinfo, hproc]
  rcases h with h | h
  · simp [h]
  · cases hcode : os.getExitCodeProcess <;> simp [h]

/-- C5. Whenever `ExecuteProcessAndCaptureOutput` returns, the exit code it
returns is the retrieved `DWORD` converted to `int` and is never `STILL_ACTIVE`
(259); and whenever the exit code cannot be retrieved or is the sentinel, the
invocation does not return: it ends in `std::terminate()`. -/
theorem returned_exit_code_never_still_active (command workingDirectory : String)
    (myThreadId : Nat) (os : Os) (p : Proc) :
    (∀ exitCode resultString,
      (ExecuteProcessAndCaptureOutput command workingDirectory myThreadId os p).1 =
        Result.returned exitCode resultString →
      exitCode ≠ 259 ∧ exitCode = toInt os.exitCode ∧ os.getExitCodeProcess = true ∧
        os.exitCode % DWORD_SIZE ≠ STILL_ACTIVE) ∧
    (os.getExitCodeProcess = false ∨ os.exitCode % DWORD_SIZE = STILL_ACTIVE →
      (ExecuteProcessAndCaptureOutput command workingDirectory myThreadId os p).1 =
        Result.terminate) := by
  refine ⟨?_, execute_terminate_of_exit_code command workingDirectory myThreadId os p⟩
  intro exitCode resultString h
  obtain ⟨hpipe, hinfo, hproc, hcode, hactive⟩ :=
    execute_returned_inv command workingDirectory myThreadId os p exitCode resultString h
  have heq := execute_eq_drain command workingDirectory myThreadId os p hpipe hinfo hproc hcode
    hactive
  rw [heq] at h
  rcases hdl : drainLoop myThreadId os.reads [] (stateBeforeDrain command myThreadId os p)
    with ⟨o, q⟩
  rw [hdl] at h
  cases o with
  | none => simp at h
  | some out =>
    simp only [Result.returned.injEq] at h
    have hc : exitCode = toInt os.exitCode := by rw [← h.1, toInt_mod]
    refine ⟨?_, hc, hcode, hactive⟩
    rw [hc]
    exact toInt_ne_still_active _ hactive

theorem returned_exit_code_never_still_active_witness :
    (ExecuteProcessAndCaptureOutput "cmd" "." 1 sampleOs sampleProc).1 =
      Result.returned 0 [72, 105, 10] ∧
    (0 : Int) ≠ 259 ∧
    (ExecuteProcessAndCaptureOutput "cmd" "." 1 { sampleOs with exitCode := 259 } sampleProc).1 =
      Result.terminate :=
  ⟨by decide,
   ((returned_exit_code_never_still_active "cmd" "." 1 sampleOs sampleProc).1 0 [72, 105, 10]
      (by decide)).1,
   (returned_exit_code_never_still_active "cmd" "." 1 { sampleOs with exitCode := 259 }
      sampleProc).2 (Or.inr (by decide))⟩

/-- C6. Whatever bytes the child wrote, at whatever length, and however the
pipe hands them over as successive successful reads of 1 to `BUFFER_SIZE`
(4096) bytes followed by a read that fails or reads nothing, an invocation
whose calls before the drain succeed returns exactly those bytes in order: the
concatenation of the chunks, nothing dropped, repeated or added. -/
theorem captured_output_is_what_was_written (command workingDirectory : String)
    (myThreadId : Nat) (os : Os) (p : Proc) (written : List Byte) (chunks : List (List Byte))
    (last : ReadResult) (rest : List ReadResult)
    (hpipe : os.createPipe = true) (hinfo : os.setHandleInformation = true)
    (hproc : os.createProcess = true) (hcode : os.getExitCodeProcess = true)
    (hactive : os.exitCode % DWORD_SIZE ≠ STILL_ACTIVE)
    (hwritten : chunks.flatten = written)
    (hsize : ∀ c ∈ chunks, 1 ≤ c.length ∧ c.length ≤ BUFFER_SIZE)
    (hlast : last.endsDrain) (hreads : os.reads = deliver chunks ++ last :: rest) :
    (ExecuteProcessAndCaptureOutput command workingDirectory myThreadId os p).1 =
      Result.returned (toInt os.exitCode) written := by
  rw [← hwritten, ← toInt_mod]
  exact execute_result_of_reads command workingDirectory myThreadId os p chunks last rest hpipe
    hinfo hproc hcode hactive hsize hlast hreads

theorem length_flatten_replicate (n : Nat) (l : List Byte) :
    (List.replicate n l).flatten.length = n * l.length := by
  induction n with
  | zero => simp
  | succ n ih =>
    rw [List.replicate_succ, List.flatten_cons, List.length_append, ih]
    ring

theorem captured_output_is_what_was_written_witness :
    largeOutputChunks.flatten.length = 1024 * 1024 + 3 ∧
    (ExecuteProcessAndCaptureOutput "cmd" "." 1 largeOutputOs sampleProc).1 =
      Result.returned 0 largeOutputChunks.flatten :=
  ⟨by
    rw [largeOutputChunks, List.flatten_append, List.length_append, length_flatten_replicate,
      List.length_replicate]
    rfl,
   captured_output_is_what_was_written "cmd" "." 1 largeOutputOs sampleProc
    largeOutputChunks.flatten largeOutputChunks { bSuccess := true, data := [] } []
    rfl rfl rfl rfl (by decide) rfl
    (by
      intro c hc
      simp only [largeOutputChunks, List.mem_append, List.mem_singleton] at hc
      rcases hc with hc | rfl
      · rw [List.eq_of_mem_replicate hc, List.length_replicate]; decide
      · decide)
    (Or.inr rfl) rfl⟩

/-- C3 (as the code behaves). An invocation that ends in an error after the
pipe was created ends in `std::terminate()` with the handles it acquired and
did not close on the normal path still open: both pipe ends after a
handle-configuration or spawn failure (no `CloseHandle` was called), and the
read end, the process handle and the thread handle after an exit-code failure
(only the write end was closed, on line 71). -/
theorem error_exit_leaves_handles_open (command workingDirectory : String) (myThreadId : Nat)
    (os : Os) (p : Proc) (hwf : p.wf) (hpipe : os.createPipe = true)
    (herr : (ExecuteProcessAndCaptureOutput command workingDirectory myThreadId os p).1 =
      Result.terminate) :
    ((os.setHandleInformation = false ∨ os.createProcess = false) ∧
      (ExecuteProcessAndCaptureOutput command workingDirectory myThreadId os p).2.openHandles =
        p.openHandles ++ [p.nextHandle, p.nextHandle + 1] ∧
      (ExecuteProcessAndCaptureOutput command workingDirectory myThreadId os p).2.closeCalls =
        p.closeCalls) ∨
    ((os.setHandleInformation = true ∧ os.createProcess = true ∧
        (os.getExitCodeProcess = false ∨ os.exitCode % DWORD_SIZE = STILL_ACTIVE)) ∧
      (ExecuteProcessAndCaptureOutput command workingDirectory myThreadId os p).2.openHandles =
        p.openHandles ++ [p.nextHandle, p.nextHandle + 2, p.nextHandle + 3] ∧
      (ExecuteProcessAndCaptureOutput command workingDirectory myThreadId os p).2.closeCalls =
        p.closeCalls ++ [p.nextHandle + 1]) := by
  have h1 : p.nextHandle + 1 ∉ p.openHandles := fun h => by have := hwf _ h; omega
  by_cases hinfo : os.setHandleInformation = true
  swap
  · left
    simp [ExecuteProcessAndCaptureOutput, hpipe, hinfo, CreatePipe, Proc.writeCerr]
  by_cases hproc : os.createProcess = true
  swap
  · left
    simp [ExecuteProcessAndCaptureOutput, hpipe, hinfo, hproc, CreatePipe, Proc.writeCerr]
  right
  have herase : (p.openHandles ++ [p.nextHandle, p.nextHandle + 1] ++
      [p.nextHandle + 2, p.nextHandle + 3]).erase (p.nextHandle + 1) =
      p.openHandles ++ [p.nextHandle, p.nextHandle + 2, p.nextHandle + 3] := by
    simp [List.append_assoc, List.erase_append_right, h1, List.erase_cons]
  by_cases hcode : os.getExitCodeProcess = true
  swap
  · refine ⟨⟨hinfo, hproc, Or.inl (by simpa using hcode)⟩, ?_, ?_⟩
    · simp only [ExecuteProcessAndCaptureOutput, hpipe, hinfo, hproc, hcode, CreatePipe,
        CreateProcessA, CloseHandle, Proc.printTime, Proc.writeCerr, TerminateProcess]
      simp only [Bool.not_true, Bool.false_eq_true, if_false, Bool.not_false, if_true]
      rw [← herase]
      split <;> [split; skip] <;> rfl
    · simp only [ExecuteProcessAndCaptureOutput, hpipe, hinfo, hproc, hcode, CreatePipe,
        CreateProcessA, CloseHandle, Proc.printTime, Proc.writeCerr, TerminateProcess]
      simp only [Bool.not_true, Bool.false_eq_true, if_false, Bool.not_false, if_true]
      split <;> [split; skip] <;> rfl
  by_cases hactive : os.exitCode % DWORD_SIZE = STILL_ACTIVE
  · refine ⟨⟨hinfo, hproc, Or.inr hactive⟩, ?_, ?_⟩
    · simp only [ExecuteProcessAndCaptureOutput, hpipe, hinfo, hproc, hcode, hactive, CreatePipe,
        CreateProcessA, CloseHandle, Proc.printTime, Proc.writeCerr, TerminateProcess]
      simp only [Bool.not_true, Bool.false_eq_true, if_false, Bool.not_false, if_true,
        beq_self_eq_true]
      rw [← herase]
      split <;> [split; skip] <;> rfl
    · simp only [ExecuteProcessAndCaptureOutput, hpipe, hinfo, hproc, hcode, hactive, CreatePipe,
        CreateProcessA, CloseHandle, Proc.printTime, Proc.writeCerr, TerminateProcess]
      simp only [Bool.not_true, Bool.false_eq_true, if_false, Bool.not_false, if_true,
        beq_self_eq_true]
      split <;> [split; skip] <;> rfl
  · exfalso
    have heq := execute_eq_drain command workingDirectory myThreadId os p hpipe hinfo hproc hcode
      hactive
    rw [heq] at herr
    rcases hdl : drainLoop myThreadId os.reads [] (stateBeforeDrain command myThreadId os p)
      with ⟨o, q⟩
    rw [hdl] at herr
    cases o <;> simp at herr

theorem error_exit_leaves_handles_open_witness :
    sampleProc.wf ∧
    (ExecuteProcessAndCaptureOutput "cmd" "." 1 { sampleOs with getExitCodeProcess := false }
      sampleProc).1 = Result.terminate ∧
    (ExecuteProcessAndCaptureOutput "cmd" "." 1 { sampleOs with getExitCodeProcess := false }
      sampleProc).2.openHandles = [0, 1, 2, 3, 4, 6, 7] :=
  ⟨by decide, by decide,
   (error_exit_leaves_handles_open "cmd" "." 1 { sampleOs with getExitCodeProcess := false }
      sampleProc (by decide) rfl (by decide)).elim
     (fun h => absurd h.1 (by decide)) (fun h => h.2.1)⟩

/-- C3 fails as stated: when `CreateProcessA` fails, the invocation ends in
`std::terminate()` with both pipe ends (handles 4 and 5) still open and no
`CloseHandle` call made, so the open handles at the error exit are not those at
entry. -/
theorem error_exit_handles_differ_from_entry :
    (ExecuteProcessAndCaptureOutput "cmd" "." 1 { sampleOs with createProcess := false }
      sampleProc).1 = Result.terminate ∧
    sampleProc.openHandles = [0, 1, 2, 3] ∧
    (ExecuteProcessAndCaptureOutput "cmd" "." 1 { sampleOs with createProcess := false }
      sampleProc).2.openHandles = [0, 1, 2, 3, 4, 5] ∧
    (ExecuteProcessAndCaptureOutput "cmd" "." 1 { sampleOs with createProcess := false }
      sampleProc).2.closeCalls = [] ∧
    (ExecuteProcessAndCaptureOutput "cmd" "." 1 { sampleOs with createProcess := false }
      sampleProc).2.openHandles ≠ sampleProc.openHandles := by
  decide

/-- C7 (as the code behaves). When the wait times out and `TerminateProcess`,
called with `UINT(-1)` = 4294967295, succeeds, the invocation returns exactly
when the exit code is then retrieved and is not `STILL_ACTIVE` (and the drain
ends): it returns that code converted to `int`, which is -1 when the system
reports the code passed to `TerminateProcess`, together with the bytes
drained. -/
theorem timeout_returns_retrieved_exit_code (command workingDirectory : String)
    (myThreadId : Nat) (os : Os) (p : Proc) (chunks : List (List Byte)) (last : ReadResult)
    (rest : List ReadResult)
    (hpipe : os.createPipe = true) (hinfo : os.setHandleInformation = true)
    (hproc : os.createProcess = true)
    (hwait : os.waitResult = WAIT_TIMEOUT) (hterm : os.terminateProcess = true)
    (hcode : os.getExitCodeProcess = true)
    (hactive : os.exitCode % DWORD_SIZE ≠ STILL_ACTIVE)
    (hsize : ∀ c ∈ chunks, 1 ≤ c.length ∧ c.length ≤ BUFFER_SIZE)
    (hlast : last.endsDrain) (hreads : os.reads = deliver chunks ++ last :: rest) :
    (ExecuteProcessAndCaptureOutput command workingDirectory myThreadId os p).1 =
      Result.returned (toInt os.exitCode) chunks.flatten ∧
    (ExecuteProcessAndCaptureOutput command workingDirectory myThreadId os p).2.terminateCalls =
      p.terminateCalls ++ [(p.nextHandle + 2, 4294967295)] ∧
    (os.exitCode = 4294967295 → toInt os.exitCode = -1) := by
  have hres := execute_result_of_reads command workingDirectory myThreadId os p chunks last rest
    hpipe hinfo hproc hcode hactive hsize hlast hreads
  rw [toInt_mod] at hres
  refine ⟨hres, ?_, ?_⟩
  · have heq := execute_eq_drain command workingDirectory myThreadId os p hpipe hinfo hproc hcode
      hactive
    have hd := drainLoop_snd myThreadId os.reads [] (stateBeforeDrain command myThreadId os p)
    have hs := stateBeforeDrain_handles command myThreadId os p
    rw [heq] at hres ⊢
    rcases hdl : drainLoop myThreadId os.reads [] (stateBeforeDrain command myThreadId os p)
      with ⟨o, q⟩
    rw [hdl] at hres hd
    cases o with
    | none => simp at hres
    | some out =>
      simp only [CloseHandle, Proc.printTime]
      simp only at hd
      rw [hd.2.2.2.1, hs.2.2.2, if_pos hwait]
      rfl
  · intro h
    rw [h]
    decide

theorem timeout_returns_retrieved_exit_code_witness :
    (ExecuteProcessAndCaptureOutput "cmd" "." 1 timeoutOs sampleProc).1 =
      Result.returned (-1) [72, 105, 10] ∧
    (ExecuteProcessAndCaptureOutput "cmd" "." 1 timeoutOs sampleProc).2.terminateCalls =
      [(6, 4294967295)] :=
  have h := timeout_returns_retrieved_exit_code "cmd" "." 1 timeoutOs sampleProc
    [[72, 105, 10]] { bSuccess := false, data := [] } [] rfl rfl rfl rfl rfl rfl (by decide)
    (by decide) (Or.inl rfl) rfl
  ⟨h.1, h.2.1⟩

/-- C7 fails as stated: the wait times out and `TerminateProcess` succeeds, but
`GetExitCodeProcess` still reports `STILL_ACTIVE` (termination is only
initiated by `TerminateProcess`); the test of line 96 then ends the process in
`std::terminate()` and nothing is returned. -/
theorem timeout_with_successful_termination_can_fail :
    timeoutOs.waitResult = WAIT_TIMEOUT ∧ timeoutOs.terminateProcess = true ∧
    (ExecuteProcessAndCaptureOutput "cmd" "." 1 { timeoutOs with exitCode := 259 }
      sampleProc).1 = Result.terminate ∧
    (ExecuteProcessAndCaptureOutput "cmd" "." 1 { timeoutOs with exitCode := 259 }
      sampleProc).2.terminateCalls = [(6, 4294967295)] ∧
    (ExecuteProcessAndCaptureOutput "cmd" "." 1 { timeoutOs with exitCode := 259 }
      sampleProc).2.cerr =
      ["Internal Error: Execution took longer than 30000ms, abandoning!",
       "Command was: \x27cmd\x27",
       "Internal Error: Failed to get exit code from process, it is still running!"] := by
  decide

/-- C8 (as the code behaves). A failed read during the drain ends the drain
exactly as a read of zero bytes does: the invocation returns normally, with the
exit code and the bytes collected before the failed read, and `std::cerr` is
as it was when the drain began. -/
theorem failed_read_ends_drain_normally (command workingDirectory : String)
    (myThreadId : Nat) (os : Os) (p : Proc) (chunks : List (List Byte)) (failed : ReadResult)
    (rest : List ReadResult)
    (hpipe : os.createPipe = true) (hinfo : os.setHandleInformation = true)
    (hproc : os.createProcess = true) (hcode : os.getExitCodeProcess = true)
    (hactive : os.exitCode % DWORD_SIZE ≠ STILL_ACTIVE)
    (hsize : ∀ c ∈ chunks, 1 ≤ c.length ∧ c.length ≤ BUFFER_SIZE)
    (hfailed : failed.bSuccess = false) (hreads : os.reads = deliver chunks ++ failed :: rest) :
    (ExecuteProcessAndCaptureOutput command workingDirectory myThreadId os p).1 =
      Result.returned (toInt os.exitCode) chunks.flatten ∧
    (ExecuteProcessAndCaptureOutput command workingDirectory myThreadId os p).1 =
      (ExecuteProcessAndCaptureOutput command workingDirectory myThreadId
        { os with reads := deliver chunks ++ [{ bSuccess := true, data := [] }] } p).1 ∧
    (ExecuteProcessAndCaptureOutput command workingDirectory myThreadId os p).2.cerr =
      (stateBeforeDrain command myThreadId os p).cerr := by
  have h1 := execute_result_of_reads command workingDirectory myThreadId os p chunks failed rest
    hpipe hinfo hproc hcode hactive hsize (Or.inl hfailed) hreads
  have h2 := execute_result_of_reads command workingDirectory myThreadId
    { os with reads := deliver chunks ++ [{ bSuccess := true, data := [] }] } p chunks
    { bSuccess := true, data := [] } [] hpipe hinfo hproc hcode hactive hsize (Or.inr rfl) rfl
  rw [toInt_mod] at h1
  refine ⟨h1, by rw [h1, h2, toInt_mod], ?_⟩
  have heq := execute_eq_drain command workingDirectory myThreadId os p hpipe hinfo hproc hcode
    hactive
  have hd := drainLoop_snd myThreadId os.reads [] (stateBeforeDrain command myThreadId os p)
  rw [heq] at h1 ⊢
  rcases hdl : drainLoop myThreadId os.reads [] (stateBeforeDrain command myThreadId os p)
    with ⟨o, q⟩
  rw [hdl] at h1 hd
  cases o with
  | none => simp at h1
  | some out =>
    simp only [CloseHandle, Proc.printTime]
    simp only at hd
    exact hd.2.2.2.2

theorem failed_read_ends_drain_normally_witness :
    (ExecuteProcessAndCaptureOutput "cmd" "." 1 sampleOs sampleProc).1 =
      Result.returned 0 [72, 105, 10] :=
  (failed_read_ends_drain_normally "cmd" "." 1 sampleOs sampleProc [[72, 105, 10]]
    { bSuccess := false, data := [] } [] rfl rfl rfl rfl (by decide) (by decide) rfl rfl).1

/-- C8 fails as stated: the first read of the drain fails, and the invocation
returns an ordinary result, exit code 0 with empty output, having written
nothing to `std::cerr`. -/
theorem failed_read_returns_ordinary_result :
    (ExecuteProcessAndCaptureOutput "cmd" "." 1
      { sampleOs with reads := [{ bSuccess := false, data := [] }] } sampleProc).1 =
      Result.returned 0 [] ∧
    (ExecuteProcessAndCaptureOutput "cmd" "." 1
      { sampleOs with reads := [{ bSuccess := false, data := [] }] } sampleProc).2.cerr = [] := by
  decide

/-! ## Facts about `stoull` on decimal numerals -/

theorem digitChar_isDigit (k : Nat) (hk : k < 10) :
    (Nat.digitChar k).isDigit = true ∧ (Nat.digitChar k).toNat - 48 = k ∧
      isspace (Nat.digitChar k) = false ∧ ((Nat.digitChar k).toNat == 45) = false ∧
      ((Nat.digitChar k).toNat == 43) = false := by
  interval_cases k <;> decide

theorem digitsValue_append_singleton (pre : List Char) (d : Char) :
    digitsValue (pre ++ [d]) = 10 * digitsValue pre + (d.toNat - 48) := by
  simp [digitsValue, List.foldl_append]

/-- The digits `Nat.toDigitsCore` puts in front of its accumulator. -/
theorem toDigitsCore_spec (fuel : Nat) : ∀ (n : Nat) (ds : List Char), n < fuel →
    ∃ pre : List Char, Nat.toDigitsCore 10 fuel n ds = pre ++ ds ∧ pre ≠ [] ∧
      (∀ c ∈ pre, c.isDigit = true) ∧ digitsValue pre = n ∧
      (∀ c, pre.head? = some c → isspace c = false ∧ (c.toNat == 45) = false ∧
        (c.toNat == 43) = false) := by
  induction fuel with
  | zero => intro n ds h; omega
  | succ fuel ih =>
    intro n ds hn
    have hd := digitChar_isDigit (n % 10) (Nat.mod_lt _ (by decide))
    simp only [Nat.toDigitsCore]
    by_cases h0 : n / 10 = 0
    · refine ⟨[Nat.digitChar (n % 10)], by simp [h0], by simp, ?_, ?_, ?_⟩
      · intro c hc
        simp only [List.mem_singleton] at hc
        rw [hc]; exact hd.1
      · simp only [digitsValue, List.foldl_cons, List.foldl_nil]
        omega
      · intro c hc
        simp only [List.head?_cons, Option.some.injEq] at hc
        rw [← hc]; exact ⟨hd.2.2.1, hd.2.2.2.1, hd.2.2.2.2⟩
    · obtain ⟨pre, hpre, hne, hall, hval, hhead⟩ :=
        ih (n / 10) (Nat.digitChar (n % 10) :: ds) (by omega)
      refine ⟨pre ++ [Nat.digitChar (n % 10)], by simp [h0, hpre], by simp, ?_, ?_, ?_⟩
      · intro c hc
        rcases List.mem_append.1 hc with hc | hc
        · exact hall c hc
        · simp only [List.mem_singleton] at hc
          rw [hc]; exact hd.1
      · rw [digitsValue_append_singleton, hval, hd.2.1]
        omega
      · intro c hc
        apply hhead
        cases pre with
        | nil => exact absurd rfl hne
        | cons a t => simpa using hc

/-- Decimal numerals of values that fit `unsigned long long` parse to
themselves. -/
theorem stoull_toString (n : Nat) (hn : n < SIZE_T_SIZE) :
    stoull (toString n) = Except.ok n := by
  obtain ⟨pre, hpre, hne, hall, hval, hhead⟩ := toDigitsCore_spec (n + 1) n [] (by omega)
  have hlist : (toString n).toList = pre := by
    show (Nat.toDigits 10 n).asString.toList = pre
    simp [Nat.toDigits, hpre, List.asString]
  cases pre with
  | nil => exact absurd rfl hne
  | cons a t =>
    obtain ⟨hs, hm, hp⟩ := hhead a rfl
    have htake : List.takeWhile Char.isDigit (a :: t) = a :: t :=
      List.takeWhile_eq_self_iff.2 hall
    have hlt : ¬ digitsValue (a :: t) ≥ SIZE_T_SIZE := by rw [hval]; omega
    simp only [stoull, hlist, List.dropWhile_cons, hs, hm, hp, Bool.false_eq_true, if_false]
    rw [htake]
    simp [hlt, hval, hn]



/-- C9 (as the code behaves). Without an argument the thread count is 3. With
an argument, `main` goes by what `std::stoull` makes of it: a value in
[1, 64] starts that many workers; a value outside [1, 64] writes the
out-of-bounds line to `std::cerr` and returns -1 before any worker is started;
an exception of `std::stoull` (no digit to read, or a value that does not fit)
is not caught, so the process ends in `std::terminate()` before any worker is
started, without that line and without the return value -1. The decimal
numeral of every value that fits 64 bits is read as that value. -/
theorem main_thread_count (prog arg : String) (rest : List String) :
    main [] = MainStart.startWorkers 3 [5000, 500, 500] ["Using thread count = 3"] ∧
    main [prog] = MainStart.startWorkers 3 [5000, 500, 500] ["Using thread count = 3"] ∧
    (∀ n, stoull arg = Except.ok n → 1 ≤ n ∧ n ≤ 64 →
      main (prog :: arg :: rest) = MainStart.startWorkers n
        (5000 :: List.replicate (n - 1) 500) ["Using thread count = " ++ toString n]) ∧
    (∀ n, stoull arg = Except.ok n → ¬ (1 ≤ n ∧ n ≤ 64) →
      main (prog :: arg :: rest) = MainStart.exit (-1)
        ["Thread count out of bounds. Use 1 <= thread count <= 64."]) ∧
    (∀ e, stoull arg = Except.error e → main (prog :: arg :: rest) = MainStart.uncaught e) ∧
    ((∃ threadCount times cout,
        main (prog :: arg :: rest) = MainStart.startWorkers threadCount times cout) ↔
      ∃ n, stoull arg = Except.ok n ∧ 1 ≤ n ∧ n ≤ 64) ∧
    (∀ n, n < 2 ^ 64 → stoull (toString n) = Except.ok n) := by
  have hok : ∀ n, stoull arg = Except.ok n → 1 ≤ n ∧ n ≤ 64 →
      main (prog :: arg :: rest) = MainStart.startWorkers n
        (5000 :: List.replicate (n - 1) 500) ["Using thread count = " ++ toString n] := by
    intro n hn hr
    have h1 : ¬ n < 1 := by omega
    have h2 : ¬ 64 < n := by omega
    simp [main, hn, h1, h2]
  have hbad : ∀ n, stoull arg = Except.ok n → ¬ (1 ≤ n ∧ n ≤ 64) →
      main (prog :: arg :: rest) = MainStart.exit (-1)
        ["Thread count out of bounds. Use 1 <= thread count <= 64."] := by
    intro n hn hr
    simp [main, hn]
    omega
  have herr : ∀ e, stoull arg = Except.error e →
      main (prog :: arg :: rest) = MainStart.uncaught e := by
    intro e he
    simp [main, he]
  refine ⟨by decide, by simp [main]; decide, hok, hbad, herr, ?_, ?_⟩
  · constructor
    · rintro ⟨t, times, cout, h⟩
      cases hs : stoull arg with
      | error e => rw [herr e hs] at h; cases h
      | ok n =>
        by_cases hr : 1 ≤ n ∧ n ≤ 64
        · exact ⟨n, rfl, hr⟩
        · rw [hbad n hs hr] at h; cases h
    · rintro ⟨n, hn, hr⟩
      exact ⟨_, _, _, hok n hn hr⟩
  · intro n hn
    exact stoull_toString n hn

theorem main_thread_count_witness :
    main ["mwe.exe", "8"] = MainStart.startWorkers 8 [5000, 500, 500, 500, 500, 500, 500, 500]
      ["Using thread count = 8"] ∧
    main ["mwe.exe", "65"] = MainStart.exit (-1)
      ["Thread count out of bounds. Use 1 <= thread count <= 64."] :=
  ⟨(main_thread_count "mwe.exe" "8" []).2.2.1 8 rfl (by decide),
   (main_thread_count "mwe.exe" "65" []).2.2.2.1 65 rfl (by decide)⟩

/-- C9 fails as stated. For the unparsable argument `abc`, `std::stoull` throws
`std::invalid_argument`, which `main` does not catch: the process ends in
`std::terminate()`, not by writing the out-of-bounds line and returning -1.
And for the argument `12abc`, which is not an integer, the run proceeds, with
12 workers. -/
theorem main_unparsable_argument :
    main ["mwe.exe", "abc"] = MainStart.uncaught StoullError.invalid_argument ∧
    main ["mwe.exe", "abc"] ≠ MainStart.exit (-1)
      ["Thread count out of bounds. Use 1 <= thread count <= 64."] ∧
    main ["mwe.exe", "12abc"] = MainStart.startWorkers 12
      [5000, 500, 500, 500, 500, 500, 500, 500, 500, 500, 500, 500]
      ["Using thread count = 12"] := by
  decide

/-- C10 at `what = "Reading output"`, `threadId = 1`, `usTaken = 0`: the one
line `PrintTimeLocked` writes begins with the literal `Thead ` of line 23, so
it is not the line `Thread 1: Reading output took 0ms.`. -/
theorem PrintTimeLocked_writes_Thead :
    PrintTimeLocked "Reading output" 1 0 [] = ["Thead 1: Reading output took 0ms."] ∧
    PrintTimeLocked "Reading output" 1 0 [] ≠ ["Thread 1: Reading output took 0ms."] := by
  decide

/-! ## Facts about the worker pool -/

theorem mem_of_getElem? {l : List Pc} {i : Nat} {pc : Pc} (h : l[i]? = some pc) : pc ∈ l := by
  rw [List.getElem?_eq_some] at h
  obtain ⟨hi, rfl⟩ := h
  exact List.getElem_mem _

theorem mem_set_cases {l : List Pc} {i : Nat} {a b : Pc} (h : b ∈ l.set i a) :
    b = a ∨ b ∈ l := by
  induction l generalizing i with
  | nil => simp at h
  | cons x xs ih =>
    cases i with
    | zero =>
      simp only [List.set_cons_zero, List.mem_cons] at h
      rcases h with h | h
      · exact Or.inl h
      · exact Or.inr (List.mem_cons_of_mem _ h)
    | succ i =>
      simp only [List.set_cons_succ, List.mem_cons] at h
      rcases h with h | h
      · exact Or.inr (h ▸ List.mem_cons_self _ _)
      · rcases ih h with h | h
        · exact Or.inl h
        · exact Or.inr (List.mem_cons_of_mem _ h)

theorem count_exited_set (l : List Pc) (i : Nat) (a b : Pc) (h : l[i]? = some a)
    (ha : a ≠ Pc.exited) :
    (l.set i b).count Pc.exited = l.count Pc.exited + (if b = Pc.exited then 1 else 0) ∧
      l.count Pc.exited < l.length := by
  induction l generalizing i with
  | nil => simp at h
  | cons x xs ih =>
    cases i with
    | zero =>
      simp only [List.getElem?_cons_zero, Option.some.injEq] at h
      subst h
      have hle := List.count_le_length Pc.exited xs
      constructor
      · by_cases hb : b = Pc.exited
        · simp [List.count_cons, hb, ha]
        · simp [List.count_cons, hb, ha]
      · simp [List.count_cons, ha]
        omega
    | succ i =>
      simp only [List.getElem?_cons_succ] at h
      obtain ⟨h1, h2⟩ := ih i h
      constructor
      · simp only [List.set_cons_succ, List.count_cons, h1]
        omega
      · simp only [List.count_cons, List.length_cons]
        split <;> omega

theorem inflightFrom_set_of_claiming (l : List Pc) (k i : Nat) (h : l[i]? = some Pc.claiming) :
    inflightFrom k (l.set i Pc.exited) = inflightFrom k l ∧
    ∀ idx, (inflightFrom k (l.set i (Pc.executing idx))).Perm
      ((k + i + 1, idx) :: inflightFrom k l) := by
  induction l generalizing i k with
  | nil => simp at h
  | cons x xs ih =>
    cases i with
    | zero =>
      simp only [List.getElem?_cons_zero, Option.some.injEq] at h
      subst h
      simp [inflightFrom]
    | succ i =>
      simp only [List.getElem?_cons_succ] at h
      obtain ⟨h1, h2⟩ := ih (k + 1) i h
      have e : k + 1 + i + 1 = k + (i + 1) + 1 := by omega
      constructor
      · cases x <;> simp [inflightFrom, h1]
      · intro idx
        have h3 := h2 idx
        rw [e] at h3
        cases x with
        | executing j =>
          simp only [List.set_cons_succ, inflightFrom]
          exact (List.Perm.cons _ h3).trans (List.Perm.swap _ _ _)
        | claiming => simpa [inflightFrom] using h3
        | blocked j => simpa [inflightFrom] using h3
        | exited => simpa [inflightFrom] using h3

theorem inflightFrom_set_of_executing (l : List Pc) (k i idx : Nat)
    (h : l[i]? = some (Pc.executing idx)) :
    (inflightFrom k l).Perm ((k + i + 1, idx) :: inflightFrom k (l.set i Pc.claiming)) := by
  induction l generalizing i k with
  | nil => simp at h
  | cons x xs ih =>
    cases i with
    | zero =>
      simp only [List.getElem?_cons_zero, Option.some.injEq] at h
      subst h
      simp [inflightFrom]
    | succ i =>
      simp only [List.getElem?_cons_succ] at h
      have h3 := ih (k + 1) i h
      have e : k + 1 + i + 1 = k + (i + 1) + 1 := by omega
      rw [e] at h3
      cases x with
      | executing j =>
        simp only [List.set_cons_succ, inflightFrom]
        exact (List.Perm.cons _ h3).trans (List.Perm.swap _ _ _)
      | claiming => simpa [inflightFrom] using h3
      | blocked j => simpa [inflightFrom] using h3
      | exited => simpa [inflightFrom] using h3

theorem inflightFrom_of_all_exited (l : List Pc) (k : Nat) (h : ∀ pc ∈ l, pc = Pc.exited) :
    inflightFrom k l = [] := by
  induction l generalizing k with
  | nil => rfl
  | cons x xs ih =>
    have hx := h x (List.mem_cons_self _ _)
    subst hx
    simp only [inflightFrom]
    exact ih (k + 1) (fun pc hpc => h pc (List.mem_cons_of_mem _ hpc))

theorem PoolInv_init (times : List Nat) (threadCount : Nat) (proc : Proc) :
    PoolInv times threadCount (Pool.init threadCount proc) := by
  refine ⟨rfl, by simp [Pool.init], ?_, ?_, rfl, rfl, ?_, ?_⟩
  · intro idx h
    simp only [Pool.init] at h
    have := List.eq_of_mem_replicate h
    cases this
  · intro idx h
    simp only [Pool.init] at h
    have := List.eq_of_mem_replicate h
    cases this
  · simp only [Pool.init, List.length_nil, Nat.zero_sub]
    rw [List.count_eq_zero]
    intro h
    have := List.eq_of_mem_replicate h
    cases this
  · have h : inflightFrom 0 (List.replicate threadCount Pc.claiming) = [] := by
      generalize 0 = k
      induction threadCount generalizing k with
      | zero => rfl
      | succ n ih => simp only [List.replicate_succ, inflightFrom]; exact ih (k + 1)
    simp [Pool.init, h]

theorem PoolInv_step (env : Env) (times : List Nat) (threadCount : Nat)
    (hret : env.alwaysReturns times) (hvec : times.length + threadCount < SIZE_T_SIZE)
    (i : Nat) (s : Pool) (hinv : PoolInv times threadCount s) :
    PoolInv times threadCount (ThreadFunction env times i s) := by
  obtain ⟨hterm, hlen, hblk, hexe, hwc, hmap, hcnt, hperm⟩ := hinv
  rcases hpc : s.pcs[i]? with _ | pc
  · simp only [ThreadFunction, hterm, hpc]
    exact ⟨hterm, hlen, hblk, hexe, hwc, hmap, hcnt, hperm⟩
  cases pc with
  | exited =>
    simp only [ThreadFunction, hterm, hpc]
    exact ⟨hterm, hlen, hblk, hexe, hwc, hmap, hcnt, hperm⟩
  | blocked idx =>
    simp only [ThreadFunction, hterm, hpc]
    exact ⟨hterm, hlen, hblk, hexe, hwc, hmap, hcnt, hperm⟩
  | claiming =>
    have hcs := fun b => (count_exited_set s.pcs i Pc.claiming b hpc (by simp)).1
    have hclt := (count_exited_set s.pcs i Pc.claiming Pc.exited hpc (by simp)).2
    have hin := inflightFrom_set_of_claiming s.pcs 0 i hpc
    have hwrap : (s.fetched.length + 1) % SIZE_T_SIZE = s.fetched.length + 1 := by
      apply Nat.mod_eq_of_lt
      omega
    have hmap2 : List.map Prod.snd (s.fetched ++ [(i + 1, s.fetched.length)]) =
        List.range (s.fetched.length + 1) := by
      rw [List.map_append, hmap, List.range_succ]; rfl
    by_cases hn : s.workCounter ≥ times.length
    · simp only [ThreadFunction, hterm, hpc, hn, if_true, Bool.false_eq_true, if_false]
      rw [hwc] at hn
      refine ⟨by first | exact hterm | rfl, by simp [hlen], ?_, ?_, ?_, ?_, ?_, ?_⟩
      · intro idx h
        rcases mem_set_cases h with h | h
        · cases h
        · exact hblk idx h
      · intro idx h
        rcases mem_set_cases h with h | h
        · cases h
        · exact hexe idx h
      · simp [hwc, hwrap]
      · simp only [hwc, List.length_append, List.length_singleton]
        exact hmap2
      · simp only [List.length_append, List.length_singleton]
        rw [hcs Pc.exited, hcnt]
        simp only [if_true]
        omega
      · simp only [hin.1, hwc, List.filter_append]
        have : ¬ s.fetched.length < times.length := by omega
        simpa [List.filter_cons, this] using hperm
    · simp only [ThreadFunction, hterm, hpc, hn, if_false, Bool.false_eq_true]
      rw [hwc] at hn
      refine ⟨by first | exact hterm | rfl, by simp [hlen], ?_, ?_, ?_, ?_, ?_, ?_⟩
      · intro idx h
        rcases mem_set_cases h with h | h
        · cases h
        · exact hblk idx h
      · intro idx h
        rcases mem_set_cases h with h | h
        · cases h; rw [hwc]; omega
        · exact hexe idx h
      · simp [hwc, hwrap]
      · simp only [hwc, List.length_append, List.length_singleton]
        exact hmap2
      · simp only [List.length_append, List.length_singleton]
        rw [hcs (Pc.executing s.workCounter), hcnt]
        simp only [reduceCtorEq, if_false]
        omega
      · simp only [hwc, List.filter_append]
        have hlt2 : s.fetched.length < times.length := by omega
        have h1 := hin.2 s.fetched.length
        simp only [Nat.zero_add] at h1
        have h2 : List.filter (fun e : Nat × Nat => decide (e.2 < times.length))
            [(i + 1, s.fetched.length)] = [(i + 1, s.fetched.length)] := by
          simp [List.filter_cons, hlt2]
        rw [h2]
        refine ((List.Perm.append_left s.executed h1).trans ?_)
        refine (List.perm_middle.trans ?_)
        refine (List.perm_append_singleton _ _).symm.trans ?_
        exact List.Perm.append_right _ hperm
  | executing idx =>
    have hidx : idx < times.length := hexe idx (mem_of_getElem? hpc)
    have htime : times[idx]? = some times[idx] := List.getElem?_eq_getElem hidx
    obtain ⟨code, out, hres⟩ := hret idx (".\\sleepHelper.exe " ++ toString times[idx])
      env.currentPath (i + 1) s.proc hidx
    have hcs := (count_exited_set s.pcs i (Pc.executing idx) Pc.claiming hpc (by simp)).1
    have hin := inflightFrom_set_of_executing s.pcs 0 i idx hpc
    rcases hex : ExecuteProcessAndCaptureOutput (".\\sleepHelper.exe " ++ toString times[idx])
      env.currentPath (i + 1) (env.os idx) s.proc with ⟨r, q⟩
    rw [hex] at hres
    simp only at hres
    subst hres
    simp only [ThreadFunction, hterm, hpc, htime, hex, Bool.false_eq_true, if_false]
    refine ⟨by first | exact hterm | rfl, by simp [hlen], ?_, ?_, hwc, hmap, ?_, ?_⟩
    · intro j h
      rcases mem_set_cases h with h | h
      · cases h
      · exact hblk j h
    · intro j h
      rcases mem_set_cases h with h | h
      · cases h
      · exact hexe j h
    · rw [hcs, hcnt]; simp
    · simp only [Nat.zero_add] at hin
      refine List.Perm.trans ?_ hperm
      rw [List.append_assoc]
      refine List.Perm.append_left s.executed ?_
      exact hin.symm

theorem PoolInv_run (env : Env) (times : List Nat) (threadCount : Nat)
    (hret : env.alwaysReturns times) (hvec : times.length + threadCount < SIZE_T_SIZE)
    (schedule : List Nat) (s : Pool) (hinv : PoolInv times threadCount s) :
    PoolInv times threadCount (run env times schedule s) := by
  induction schedule generalizing s with
  | nil => exact hinv
  | cons i rest ih =>
    simp only [run, List.foldl_cons]
    exact ih _ (PoolInv_step env times threadCount hret hvec i s hinv)

/-- In a list whose second components are `0, 1, ..., n - 1` in order, exactly
one entry carries a given `i < n`. -/
theorem filter_snd_of_range (n : Nat) : ∀ (l : List (Nat × Nat)),
    l.map Prod.snd = List.range n → ∀ i, i < n →
    ∃ w, l.filter (fun e => decide (e.2 = i)) = [(w, i)] := by
  induction n with
  | zero => intro l _ i hi; omega
  | succ n ih =>
    intro l hl i hi
    rw [List.range_succ, List.map_eq_append_iff] at hl
    obtain ⟨l1, l2, rfl, h1, h2⟩ := hl
    match l2, h2 with
    | [e], h2 =>
      simp only [List.map_cons, List.map_nil, List.cons.injEq, and_true] at h2
      rw [List.filter_append]
      by_cases hin : i < n
      · obtain ⟨w, hw⟩ := ih l1 h1 i hin
        refine ⟨w, ?_⟩
        have hne : ¬ e.2 = i := by omega
        simp [hw, List.filter_cons, hne]
      · have hi2 : i = n := by omega
        subst hi2
        have hnone : l1.filter (fun e => decide (e.2 = i)) = [] := by
          rw [List.filter_eq_nil_iff]
          intro a ha
          have hmem : a.2 ∈ List.map Prod.snd l1 := List.mem_map_of_mem _ ha
          rw [h1, List.mem_range] at hmem
          simp only [decide_eq_true_eq]
          omega
        refine ⟨e.1, ?_⟩
        rw [hnone]
        simp only [List.nil_append, List.filter_cons, h2, decide_True, if_true, List.filter_nil]
        rw [← h2]

/-- A step of a thread that has not left `ThreadFunction` makes progress: the
number of fetches still to come, counted twice, plus the number of claims in
flight decreases. -/
theorem step_progress (env : Env) (times : List Nat) (threadCount : Nat)
    (hret : env.alwaysReturns times) (i : Nat) (s : Pool) (pc : Pc)
    (hinv : PoolInv times threadCount s) (hpc : s.pcs[i]? = some pc) (hne : pc ≠ Pc.exited) :
    2 * (times.length + threadCount - (ThreadFunction env times i s).fetched.length) +
        (inflightFrom 0 (ThreadFunction env times i s).pcs).length <
      2 * (times.length + threadCount - s.fetched.length) + (inflightFrom 0 s.pcs).length := by
  obtain ⟨hterm, hlen, hblk, hexe, hwc, hmap, hcnt, hperm⟩ := hinv
  cases pc with
  | exited => exact absurd rfl hne
  | blocked idx => exact absurd (mem_of_getElem? hpc) (hblk idx)
  | claiming =>
    have hclt := (count_exited_set s.pcs i Pc.claiming Pc.exited hpc (by simp)).2
    have hin := inflightFrom_set_of_claiming s.pcs 0 i hpc
    by_cases hn : s.workCounter ≥ times.length
    · simp only [ThreadFunction, hterm, hpc, hn, if_true, Bool.false_eq_true, if_false]
      rw [hwc] at hn
      rw [hin.1]
      simp only [List.length_append, List.length_singleton]
      omega
    · simp only [ThreadFunction, hterm, hpc, hn, if_false, Bool.false_eq_true]
      rw [hwc] at hn
      have hl := (hin.2 s.workCounter).length_eq
      rw [hl]
      simp only [List.length_append, List.length_singleton, List.length_cons]
      omega
  | executing idx =>
    have hidx : idx < times.length := hexe idx (mem_of_getElem? hpc)
    have htime : times[idx]? = some times[idx] := List.getElem?_eq_getElem hidx
    obtain ⟨code, out, hres⟩ := hret idx (".\\sleepHelper.exe " ++ toString times[idx])
      env.currentPath (i + 1) s.proc hidx
    have hl := (inflightFrom_set_of_executing s.pcs 0 i idx hpc).length_eq
    rcases hex : ExecuteProcessAndCaptureOutput (".\\sleepHelper.exe " ++ toString times[idx])
      env.currentPath (i + 1) (env.os idx) s.proc with ⟨r, q⟩
    rw [hex] at hres
    simp only at hres
    subst hres
    simp only [ThreadFunction, hterm, hpc, htime, hex, Bool.false_eq_true, if_false]
    rw [hl]
    simp only [List.length_cons]
    omega

theorem run_append (env : Env) (times : List Nat) (a b : List Nat) (s : Pool) :
    run env times (a ++ b) s = run env times b (run env times a s) := by
  simp [run, List.foldl_append]

/-- From every state of a pool run in which every executor call returns, some
continuation lets every thread leave `ThreadFunction`. -/
theorem pool_can_finish (env : Env) (times : List Nat) (threadCount : Nat)
    (hret : env.alwaysReturns times) (hvec : times.length + threadCount < SIZE_T_SIZE) :
    ∀ (m : Nat) (s : Pool), PoolInv times threadCount s →
      2 * (times.length + threadCount - s.fetched.length) + (inflightFrom 0 s.pcs).length ≤ m →
      ∃ rest, (run env times rest s).allExited := by
  intro m
  induction m with
  | zero =>
    intro s hinv hm
    by_cases hall : s.allExited
    · exact ⟨[], hall⟩
    · exfalso
      simp only [Pool.allExited, not_forall] at hall
      obtain ⟨pc, hmem, hne⟩ := hall
      obtain ⟨i, hi⟩ := List.mem_iff_getElem?.1 hmem
      have := step_progress env times threadCount hret i s pc hinv hi hne
      omega
  | succ m ih =>
    intro s hinv hm
    by_cases hall : s.allExited
    · exact ⟨[], hall⟩
    · simp only [Pool.allExited, not_forall] at hall
      obtain ⟨pc, hmem, hne⟩ := hall
      obtain ⟨i, hi⟩ := List.mem_iff_getElem?.1 hmem
      have hlt := step_progress env times threadCount hret i s pc hinv hi hne
      obtain ⟨rest, hrest⟩ := ih (ThreadFunction env times i s)
        (PoolInv_step env times threadCount hret hvec i s hinv) (by omega)
      exact ⟨i :: rest, by simpa [run] using hrest⟩

theorem sampleEnv_alwaysReturns (times : List Nat) : sampleEnv.alwaysReturns times := by
  intro i command workingDirectory myThreadId p _
  exact ⟨_, _, execute_result_of_reads command workingDirectory myThreadId sampleOs p
    [[72, 105, 10]] { bSuccess := false, data := [] } [] rfl rfl rfl rfl (by decide) (by decide)
    (Or.inl rfl) rfl⟩

/-- Any one of the executor failures ends the invocation in `std::terminate()`. -/
theorem execute_terminate_of_fails (command workingDirectory : String) (myThreadId : Nat)
    (os : Os) (p : Proc) (h : os.fails) :
    (ExecuteProcessAndCaptureOutput command workingDirectory myThreadId os p).1 =
      Result.terminate := by
  rcases h with h | h | h | h | h
  · simp [ExecuteProcessAndCaptureOutput, h]
  · cases hpipe : os.createPipe <;> simp [ExecuteProcessAndCaptureOutput, hpipe, h]
  · cases hpipe : os.createPipe <;> cases hinfo : os.setHandleInformation <;>
      simp [ExecuteProcessAndCaptureOutput, hpipe, hinfo, h]
  · exact execute_terminate_of_exit_code command workingDirectory myThreadId os p (Or.inl h)
  · exact execute_terminate_of_exit_code command workingDirectory myThreadId os p (Or.inr h)

/-- A terminated process takes no further step. -/
theorem run_of_terminated (env : Env) (times : List Nat) (schedule : List Nat) (s : Pool)
    (h : s.terminated = true) : run env times schedule s = s := by
  induction schedule with
  | nil => rfl
  | cons i rest ih =>
    simp only [run, List.foldl_cons] at ih ⊢
    have hstep : ThreadFunction env times i s = s := by simp [ThreadFunction, h]
    rw [hstep]
    exact ih

/-- The step of a thread whose executor call fails. -/
theorem step_of_failure (env : Env) (times : List Nat) (i idx : Nat) (s : Pool)
    (hterm : s.terminated = false) (hpc : s.pcs[i]? = some (Pc.executing idx))
    (hfail : (env.os idx).fails) :
    (ThreadFunction env times i s).terminated = true ∧
    (ThreadFunction env times i s).workCounter = s.workCounter ∧
    (ThreadFunction env times i s).pcs = s.pcs ∧
    (ThreadFunction env times i s).fetched = s.fetched ∧
    (ThreadFunction env times i s).executed = s.executed := by
  rcases htime : times[idx]? with _ | myTime
  · simp [ThreadFunction, hterm, hpc, htime]
  · have hres := execute_terminate_of_fails (".\\sleepHelper.exe " ++ toString myTime)
      env.currentPath (i + 1) (env.os idx) s.proc hfail
    rcases hex : ExecuteProcessAndCaptureOutput (".\\sleepHelper.exe " ++ toString myTime)
      env.currentPath (i + 1) (env.os idx) s.proc with ⟨r, q⟩
    rw [hex] at hres
    simp only at hres
    subst hres
    simp [ThreadFunction, hterm, hpc, htime, hex]

/-- C2 (as the code behaves). When the executor invocation for a claimed index
fails (pipe creation, handle configuration, process creation or exit-code
retrieval), nothing handles the failure: the process ends in
`std::terminate()`. The thread that claimed the index has not claimed another
cursor value, and whatever the later interleaving, no thread fetches the cursor
or executes an index again: the fetches and executions stay those made before
the failure. -/
theorem executor_failure_ends_pool (env : Env) (times : List Nat) (i idx : Nat) (s : Pool)
    (schedule : List Nat) (hterm : s.terminated = false)
    (hpc : s.pcs[i]? = some (Pc.executing idx)) (hfail : (env.os idx).fails) :
    (ThreadFunction env times i s).terminated = true ∧
    (run env times schedule (ThreadFunction env times i s)).workCounter = s.workCounter ∧
    (run env times schedule (ThreadFunction env times i s)).pcs = s.pcs ∧
    (run env times schedule (ThreadFunction env times i s)).fetched = s.fetched ∧
    (run env times schedule (ThreadFunction env times i s)).executed = s.executed := by
  obtain ⟨h1, h2, h3, h4, h5⟩ := step_of_failure env times i idx s hterm hpc hfail
  rw [run_of_terminated env times schedule _ h1]
  exact ⟨h1, h2, h3, h4, h5⟩

theorem executor_failure_ends_pool_witness :
    (run failingEnv [5000, 500] [0, 1, 0, 1]
      (ThreadFunction failingEnv [5000, 500] 0
        (run failingEnv [5000, 500] [0] (Pool.init 2 sampleProc)))).fetched = [(1, 0)] ∧
    (run failingEnv [5000, 500] [0, 1, 0, 1]
      (ThreadFunction failingEnv [5000, 500] 0
        (run failingEnv [5000, 500] [0] (Pool.init 2 sampleProc)))).executed = [] :=
  have h := executor_failure_ends_pool failingEnv [5000, 500] 0 0
    (run failingEnv [5000, 500] [0] (Pool.init 2 sampleProc)) [0, 1, 0, 1]
    (by decide) (by decide) (Or.inr (Or.inr (Or.inl rfl)))
  ⟨h.2.2.2.1, h.2.2.2.2⟩

/-- The three states a one-thread pool on `failingEnv` can be in. -/
theorem failing_pool_states (schedule : List Nat) :
    run failingEnv [5000, 500] schedule (Pool.init 1 sampleProc) = Pool.init 1 sampleProc ∨
    run failingEnv [5000, 500] schedule (Pool.init 1 sampleProc) =
      run failingEnv [5000, 500] [0] (Pool.init 1 sampleProc) ∨
    run failingEnv [5000, 500] schedule (Pool.init 1 sampleProc) =
      run failingEnv [5000, 500] [0, 0] (Pool.init 1 sampleProc) := by
  have hstep : ∀ (i : Nat) (s : Pool), s.pcs.length = 1 → i ≠ 0 →
      ThreadFunction failingEnv [5000, 500] i s = s := by
    intro i s hs hi
    have hnone : s.pcs[i]? = none := by
      rw [List.getElem?_eq_none_iff]; omega
    simp only [ThreadFunction, hnone]
    split <;> rfl
  have hrun : ∀ (sched : List Nat) (s : Pool),
      (s = Pool.init 1 sampleProc ∨ s = run failingEnv [5000, 500] [0] (Pool.init 1 sampleProc) ∨
        s = run failingEnv [5000, 500] [0, 0] (Pool.init 1 sampleProc)) →
      (run failingEnv [5000, 500] sched s = Pool.init 1 sampleProc ∨
        run failingEnv [5000, 500] sched s =
          run failingEnv [5000, 500] [0] (Pool.init 1 sampleProc) ∨
        run failingEnv [5000, 500] sched s =
          run failingEnv [5000, 500] [0, 0] (Pool.init 1 sampleProc)) := by
    intro sched
    induction sched with
    | nil => intro s hs; exact hs
    | cons i rest ih =>
      intro s hs
      simp only [run, List.foldl_cons]
      apply ih
      by_cases hi : i = 0
      · subst hi
        rcases hs with rfl | rfl | rfl
        · exact Or.inr (Or.inl rfl)
        · exact Or.inr (Or.inr rfl)
        · exact Or.inr (Or.inr (by decide))
      · rcases hs with rfl | rfl | rfl
        · exact Or.inl (hstep i _ (by decide) hi)
        · exact Or.inr (Or.inl (hstep i _ (by decide) hi))
        · exact Or.inr (Or.inr (hstep i _ (by decide) hi))
  exact hrun schedule _ (Or.inl rfl)

/-- C2 fails as stated. One thread, two work items, and `CreateProcessA` fails
in the executor call for index 0: that call ends the process in
`std::terminate()`, and under no interleaving is index 1 ever fetched or
executed. -/
theorem failing_item_halts_the_pool :
    (run failingEnv [5000, 500] [0, 0] (Pool.init 1 sampleProc)).terminated = true ∧
    (run failingEnv [5000, 500] [0, 0] (Pool.init 1 sampleProc)).fetched = [(1, 0)] ∧
    ¬ ∃ schedule : List Nat, ∃ w : Nat,
      (w, 1) ∈ (run failingEnv [5000, 500] schedule (Pool.init 1 sampleProc)).fetched ∨
      (w, 1) ∈ (run failingEnv [5000, 500] schedule (Pool.init 1 sampleProc)).executed := by
  refine ⟨by decide, by decide, ?_⟩
  rintro ⟨schedule, w, h⟩
  have hf : (run failingEnv [5000, 500] [0] (Pool.init 1 sampleProc)).fetched = [(1, 0)] ∧
      (run failingEnv [5000, 500] [0] (Pool.init 1 sampleProc)).executed = [] := by decide
  have hg : (run failingEnv [5000, 500] [0, 0] (Pool.init 1 sampleProc)).fetched = [(1, 0)] ∧
      (run failingEnv [5000, 500] [0, 0] (Pool.init 1 sampleProc)).executed = [] := by decide
  rcases failing_pool_states schedule with e | e | e
  · rw [e] at h; simp [Pool.init] at h
  · rw [e, hf.1, hf.2] at h; simp at h
  · rw [e, hg.1, hg.2] at h; simp at h

end ReadFileMWE
